import Mathlib

/-!
Shallow embedding of the survival-comparison core of the NMF subtyping
dashboard: the Cox-PH approximation module and the log-rank test module,
together with the special-function helpers they use.  JS numbers are
modelled as real numbers; JS `Map`, `Array.find`, `filter` and the
bounded convergence loops are modelled explicitly.  Fallible analyses
return `Option` results, mirroring the `null` returns of the source.
-/

open scoped Classical
open Real

/-! ## Data model (src/src/lib and the SurvivalCurve component) -/

/-- A point of a Kaplan-Meier survival curve: `time`, `survival`, and the
optional per-point fields (`censored`, `events`, `atRisk`) that the
`SurvivalTimePoint` interface declares but the two analysis engines never
read. -/
structure SurvivalTimePoint where
  time : ℝ
  survival : ℝ
  censored : Option ℝ := none
  events : Option ℝ := none
  atRisk : Option ℝ := none

/-- A per-subtype survival curve: subtype identifier plus its time points. -/
structure SurvivalData where
  subtype : String
  timePoints : List SurvivalTimePoint

/-- One row of the Cox-PH approximation output (`CoxPHResult['groups']`). -/
structure HazardRatioGroup where
  subtype : String
  hazardRatio : ℝ
  lowerCI : ℝ
  upperCI : ℝ
  pValue : ℝ
  coefficient : ℝ
  se : ℝ

/-- The aggregate Wald test of `estimateCoxPH`. -/
structure WaldTest where
  chiSquare : ℝ
  df : ℕ
  pValue : ℝ

/-- The full result of `estimateCoxPH`. -/
structure CoxPHResult where
  referenceGroup : String
  groups : List HazardRatioGroup
  waldTest : WaldTest

/-- The result of `logRankTest`. -/
structure LogRankResult where
  pValue : ℝ
  chiSquare : ℝ
  degreesOfFreedom : ℕ

/-! ## Special-function library (coxphAnalysis module) -/

/-- The Abramowitz-Stegun polynomial shared by the two normal-CDF
implementations of the repository, evaluated in the Horner form of the
source. -/
noncomputable def asPoly (t : ℝ) : ℝ :=
  (((((1.061405429 * t + -1.453152027) * t) + 1.421413741) * t + -0.284496736) * t
    + 0.254829592) * t

/-- Standard normal CDF approximation of the coxphAnalysis module
(`normalCDF`, lines 139-154): the argument is rescaled by `1/sqrt 2`
before the rational approximation is evaluated. -/
noncomputable def normalCDF (x : ℝ) : ℝ :=
  let p : ℝ := 0.3275911
  let sign : ℝ := if x < 0 then -1 else 1
  let x' := |x| / Real.sqrt 2
  let t := 1.0 / (1.0 + p * x')
  let y := 1.0 - asPoly t * Real.exp (-x' * x')
  0.5 * (1.0 + sign * y)

/-- Lanczos approximation of `ln Γ` (`gammaLn`), with the 6-term inner
loop unrolled (`++y` visits `x+1`, ..., `x+6`). -/
noncomputable def gammaLn (x : ℝ) : ℝ :=
  let tmp := x + 5.5 - (x + 0.5) * Real.log (x + 5.5)
  let ser := (1.000000000190015
    + 76.18009172947146 / (x + 1)
    + -86.50532032941677 / (x + 2)
    + 24.01409824083091 / (x + 3)
    + -1.231739572450155 / (x + 4)
    + 1.208650973866179e-3 / (x + 5)
    + -5.395239384953e-6 / (x + 6))
  (-tmp) + Real.log (2.5066282746310005 * ser / x)

/-- The series loop of `gammainc` (`for n = 1..100` with early break when
`|del| < |sum| * 1e-10`), written with explicit fuel. -/
noncomputable def gammaincSeriesGo (a x : ℝ) : ℕ → ℕ → ℝ → ℝ → ℝ
  | 0, _, sum, _ => sum
  | fuel + 1, n, sum, del =>
    let del' := del * (x / (a + n))
    let sum' := sum + del'
    if |del'| < |sum'| * 1e-10 then sum'
    else gammaincSeriesGo a x fuel (n + 1) sum' del'

/-- The modified-Lentz continued-fraction loop of `gammainc`
(`for i = 1..100` with the `1e-30` floors and early break when
`|del - 1| < 1e-10`), written with explicit fuel. -/
noncomputable def gammaincCFGo (a : ℝ) : ℕ → ℕ → ℝ → ℝ → ℝ → ℝ → ℝ
  | 0, _, _, _, _, h => h
  | fuel + 1, i, b, c, d, h =>
    let an := -(i : ℝ) * ((i : ℝ) - a)
    let b' := b + 2
    let d1 := an * d + b'
    let d2 := if |d1| < 1e-30 then 1e-30 else d1
    let c1 := b' + an / c
    let c2 := if |c1| < 1e-30 then 1e-30 else c1
    let d3 := 1 / d2
    let del := d3 * c2
    let h' := h * del
    if |del - 1| < 1e-10 then h'
    else gammaincCFGo a fuel (i + 1) b' c2 d3 h'

/-- Regularized lower incomplete gamma function approximation
(`gammainc`): series branch for `x < a + 1`, continued-fraction branch
otherwise. -/
noncomputable def gammainc (a x : ℝ) : ℝ :=
  if x < 0 ∨ a ≤ 0 then 0
  else if x = 0 then 0
  else
    let gln := gammaLn a
    if x < a + 1 then
      gammaincSeriesGo a x 100 1 (1 / a) (1 / a) * Real.exp (-x + a * Real.log x - gln)
    else
      let b := x + 1 - a
      let h := gammaincCFGo a 100 1 b 1e30 (1 / b) (1 / b)
      1 - Real.exp (-x + a * Real.log x - gln) * h

/-- Chi-square CDF approximation of the coxphAnalysis module
(`chiSquareCDF`). -/
noncomputable def chiSquareCDF (x df : ℝ) : ℝ :=
  if x ≤ 0 then 0
  else if df ≤ 0 then 0
  else gammainc (df / 2) (x / 2)

/-! ## Log-rank module: p-value helper -/

/-- The standard-normal-CDF evaluation inlined in the `df = 1` branch of
`chiSquarePValue` (logRankTest module, lines 246-258), factored out as a
function of `z`.  Unlike `normalCDF` it evaluates the rational
approximation at `t = 1 / (1 + p * |z|)` (no `1/sqrt 2` rescaling of the
polynomial argument) while the exponential uses `exp (-z^2 / 2)`. -/
noncomputable def inlineNormalCDF (z : ℝ) : ℝ :=
  let p : ℝ := 0.3275911
  let sign : ℝ := if z < 0 then -1 else 1
  let absZ := |z|
  let t := 1.0 / (1.0 + p * absZ)
  let y := 1.0 - asPoly t * Real.exp (-absZ * absZ / 2)
  0.5 * (1.0 + sign * y)

/-- The series loop of the `df > 1` branch of `chiSquarePValue`
(`for i = 0..99`, break when `term < 1e-10`), with explicit fuel. -/
noncomputable def chiSqSeriesGo (k x : ℝ) : ℕ → ℕ → ℝ → ℝ → ℝ
  | 0, _, sum, _ => sum
  | fuel + 1, i, sum, term =>
    let term' := term * (x / (k + i))
    let sum' := sum + term'
    if term' < 1e-10 then sum'
    else chiSqSeriesGo k x fuel (i + 1) sum' term'

/-- Chi-square p-value of the logRankTest module (`chiSquarePValue`):
for `df = 1` it uses the inline normal-CDF approximation; for other `df`
a clamped upper-incomplete-gamma series approximation. -/
noncomputable def chiSquarePValue (chiSquare : ℝ) (degreesOfFreedom : ℕ) : ℝ :=
  if degreesOfFreedom = 1 then
    2 * (1 - inlineNormalCDF (Real.sqrt chiSquare))
  else
    let k := (degreesOfFreedom : ℝ) / 2
    let x := chiSquare / 2
    let sum := chiSqSeriesGo k x 100 0 0 1
    let gamma := Real.exp (-x) * x ^ k * sum / k
    max 0 (min 1 (1 - gamma))

/-! ## Log-rank test engine -/

/-- JS `Set` deduplication keeping first occurrences (auxiliary, with an
explicit seen-accumulator). -/
noncomputable def dedupFirstAux : List ℝ → List ℝ → List ℝ
  | [], _ => []
  | t :: ts, seen => if t ∈ seen then dedupFirstAux ts seen else t :: dedupFirstAux ts (t :: seen)

/-- JS `Set` deduplication of a list of numbers (keeps first occurrences). -/
noncomputable def dedupFirst (l : List ℝ) : List ℝ := dedupFirstAux l []

/-- Insertion into a sorted list of numbers (auxiliary for the ascending
sort `(a, b) => a - b`). -/
noncomputable def sortedInsert (t : ℝ) : List ℝ → List ℝ
  | [] => [t]
  | u :: us => if t ≤ u then t :: u :: us else u :: sortedInsert t us

/-- Ascending numeric sort of the source (`Array.from(set).sort`). -/
noncomputable def sortTimes : List ℝ → List ℝ
  | [] => []
  | t :: ts => sortedInsert t (sortTimes ts)

/-- The global event-time grid of `logRankTest`: union of all distinct
times across groups, sorted ascending. -/
noncomputable def gridTimes (data : List SurvivalData) : List ℝ :=
  sortTimes (dedupFirst ((data.map (fun g => g.timePoints.map (·.time))).flatten))

/-- The JS `Map` built from a group's time points (`timePointMap`):
association list in key-insertion order, later points with an existing
time overwriting the stored survival in place. -/
noncomputable def tpEntries (pts : List SurvivalTimePoint) : List (ℝ × ℝ) :=
  pts.foldl (fun l p =>
    if ∃ e ∈ l, e.1 = p.time then
      l.map (fun e => if e.1 = p.time then (e.1, p.survival) else e)
    else l ++ [(p.time, p.survival)]) []

/-- Lookup of the first entry with a given key in an association list
(the `Map.get` semantics, since `tpEntries` keys are unique). -/
noncomputable def lookupKey {β : Type} : List (ℝ × β) → ℝ → Option β
  | [], _ => none
  | e :: es, t => if e.1 = t then some e.2 else lookupKey es t

/-- `timePointMap.get(time)` of the source, returning the survival. -/
noncomputable def tpGet (pts : List SurvivalTimePoint) (t : ℝ) : Option ℝ :=
  lookupKey (tpEntries pts) t

/-- The `events` map of a group (lines 311-327): scanning the global
grid, an event entry `max 1 (round (drop * 100))` is recorded whenever
the group's raw survival at that time drops by more than `0.001` from
the previously seen value (`prevSurvival` starts at `1.0`). -/
noncomputable def eventsList (pts : List SurvivalTimePoint) (grid : List ℝ) : List (ℝ × ℤ) :=
  (grid.foldl (fun (st : ℝ × List (ℝ × ℤ)) time =>
    match tpGet pts time with
    | none => st
    | some s =>
      let drop := st.1 - s
      (s, if drop > 0.001 then st.2 ++ [(time, max 1 (round (drop * 100)))] else st.2))
    (1.0, [])).2

/-- `group.events.get(time) || 0` of the source. -/
noncomputable def eventsGet (pts : List SurvivalTimePoint) (grid : List ℝ) (t : ℝ) : ℤ :=
  match lookupKey (eventsList pts grid) t with
  | some e => e
  | none => 0

/-- The `lastSurvival` scan of lines 352-357: walk the group's map
entries in insertion order, keeping the survival of every entry with
time strictly before the grid time (starting from `1.0`). -/
noncomputable def lastSurvBefore (pts : List SurvivalTimePoint) (t : ℝ) : ℝ :=
  (tpEntries pts).foldl (fun last e => if e.1 < t then e.2 else last) 1.0

/-- The at-risk reconstruction of lines 351-358:
`round (initialCount * lastSurvival)` with `initialCount` the constant
`100` set at line 333. -/
noncomputable def atRiskAt (pts : List SurvivalTimePoint) (t : ℝ) : ℤ :=
  round ((100 : ℝ) * lastSurvBefore pts t)

/-- Per-grid-time contribution to the log-rank numerator and denominator
(lines 342-382): at-risk and event counts per group, and when both
totals are positive, `observed - expected` and the hypergeometric
variance summed over every group except the last. -/
noncomputable def lrContrib (data : List SurvivalData) (grid : List ℝ) (time : ℝ) : ℝ × ℝ :=
  let ar : List ℤ := data.map (fun g => atRiskAt g.timePoints time)
  let ev : List ℤ := data.map (fun g => eventsGet g.timePoints grid time)
  let totalAtRisk := ar.sum
  let totalEvents := ev.sum
  if 0 < totalAtRisk ∧ 0 < totalEvents then
    ((ar.zip ev).dropLast.foldl
      (fun s q => s + ((q.2 : ℝ) - (q.1 : ℝ) / (totalAtRisk : ℝ) * (totalEvents : ℝ))) 0,
     (ar.zip ev).dropLast.foldl
      (fun s q => s +
        (if 1 < totalAtRisk then
          ((q.1 : ℝ) * ((totalAtRisk : ℝ) - (q.1 : ℝ)) * (totalEvents : ℝ)
              * ((totalAtRisk : ℝ) - (totalEvents : ℝ)))
            / ((totalAtRisk : ℝ) * (totalAtRisk : ℝ) * ((totalAtRisk : ℝ) - 1))
         else 0)) 0)
  else (0, 0)

/-- Accumulated log-rank numerator and denominator over the whole grid. -/
noncomputable def lrNumDen (data : List SurvivalData) : ℝ × ℝ :=
  (gridTimes data).foldl (fun acc t =>
    let c := lrContrib data (gridTimes data) t
    (acc.1 + c.1, acc.2 + c.2)) (0, 0)

/-- The log-rank test (`logRankTest`, lines 284-397).  Note the source
takes no subtype-counts parameter: the initial count of every group is
the constant `100`.  Returns `none` for fewer than 2 groups, an empty
time grid, or a non-positive variance denominator. -/
noncomputable def logRankTest (data : List SurvivalData) : Option LogRankResult :=
  if data.length < 2 then none
  else if gridTimes data = [] then none
  else
    let nd := lrNumDen data
    if nd.2 ≤ 0 then none
    else
      some ⟨chiSquarePValue (nd.1 * nd.1 / nd.2) (data.length - 1),
            nd.1 * nd.1 / nd.2, data.length - 1⟩

/-! ## Cox-PH approximation engine -/

/-- Lookup of a subtype count with the JS `|| 100` default
(`subtypeCounts?.[name] || 100`): absent keys and the falsy value `0`
both fall back to `100`. -/
noncomputable def lookupCount (counts : String → Option ℝ) (s : String) : ℝ :=
  match counts s with
  | some v => if v = 0 then 100 else v
  | none => 100

/-- The absent `subtypeCounts` argument. -/
def noCounts : String → Option ℝ := fun _ => none

/-- `points.find(p => p.time === t)?.survival || 1` of the source: the
survival of the first point at time `t`, with `1` when there is no such
point or its survival is the falsy `0`. -/
noncomputable def findSurv : List SurvivalTimePoint → ℝ → ℝ
  | [], _ => 1
  | p :: ps, t =>
    if p.time = t then (if p.survival = 0 then 1 else p.survival) else findSurv ps t

/-- The filter loop producing the shared comparison times of
`estimateCoxPH` (auxiliary: walks the reference times, keeping those
that occur among the comparison times and are positive). -/
noncomputable def commonTimesGo (compTimes : List ℝ) : List ℝ → List ℝ
  | [] => []
  | t :: ts =>
    if t ∈ compTimes ∧ 0 < t then t :: commonTimesGo compTimes ts
    else commonTimesGo compTimes ts

/-- The shared comparison times of `estimateCoxPH` (lines 59-61):
reference times that also occur in the comparison curve and are
positive; duplicates in the reference times are kept. -/
noncomputable def commonTimes (refPts compPts : List SurvivalTimePoint) : List ℝ :=
  commonTimesGo (compPts.map (·.time)) (refPts.map (·.time))

/-- The sample-collecting loop of `estimateCoxPH` (auxiliary: walks the
shared times, pushing each valid hazard-ratio sample). -/
noncomputable def hrSamplesGo (refPts compPts : List SurvivalTimePoint) : List ℝ → List ℝ
  | [] => []
  | t :: ts =>
    let s1 := findSurv refPts t
    let s2 := findSurv compPts t
    let rest := hrSamplesGo refPts compPts ts
    if 0.05 < s1 ∧ s1 < 0.99 ∧ 0.05 < s2 ∧ s2 < 0.99 then
      let hr := Real.log s2 / Real.log s1
      if 0 < hr ∧ hr < 100 then hr :: rest else rest
    else rest

/-- The per-time hazard-ratio samples of `estimateCoxPH` (lines 63-75):
at each shared time, when both survivals lie strictly in `(0.05, 0.99)`,
the sample `log s2 / log s1` is kept if it lies strictly in `(0, 100)`. -/
noncomputable def hrSamples (refPts compPts : List SurvivalTimePoint) : List ℝ :=
  hrSamplesGo refPts compPts (commonTimes refPts compPts)

/-- The per-comparison-group computation of `estimateCoxPH`
(lines 49-113): geometric-mean hazard ratio, Bessel-corrected empirical
standard deviation of the log samples (with the `|| 1` guard on the
`length - 1` denominator) floored by the sample-size heuristic
`sqrt (1/n1 + 1/n2) * 0.5`, the 95% CI `exp (coefficient ± 1.96 se)`,
and the Wald p-value; `none` when there is no valid sample. -/
noncomputable def coxGroup (counts : String → Option ℝ) (refName : String)
    (refPts : List SurvivalTimePoint) (g : SurvivalData) : Option HazardRatioGroup :=
  let hrs := hrSamples refPts g.timePoints
  if hrs = [] then none
  else
    let logHRs := hrs.map Real.log
    let meanLogHR := logHRs.sum / (logHRs.length : ℝ)
    let n1 := lookupCount counts refName
    let n2 := lookupCount counts g.subtype
    let lenm1 := (logHRs.length : ℝ) - 1
    let variance := (logHRs.map (fun lhr => (lhr - meanLogHR) ^ 2)).sum
      / (if lenm1 = 0 then 1 else lenm1)
    let baseSE := Real.sqrt variance
    let se := max baseSE (Real.sqrt (1 / n1 + 1 / n2) * 0.5)
    some ⟨g.subtype, Real.exp meanLogHR,
          Real.exp (meanLogHR - 1.96 * se), Real.exp (meanLogHR + 1.96 * se),
          2 * (1 - normalCDF |meanLogHR / se|),
          meanLogHR, se⟩

/-- The comparison-group loop of `estimateCoxPH`: each group contributes
a `HazardRatioGroup` unless `coxGroup` drops it (`continue`). -/
noncomputable def coxGroupsGo (counts : String → Option ℝ) (refName : String)
    (refPts : List SurvivalTimePoint) : List SurvivalData → List HazardRatioGroup
  | [] => []
  | g :: gs =>
    match coxGroup counts refName refPts g with
    | some r => r :: coxGroupsGo counts refName refPts gs
    | none => coxGroupsGo counts refName refPts gs

/-- The Cox-PH approximation (`estimateCoxPH`, lines 34-134): the first
group is the reference, each later group contributes a
`HazardRatioGroup` unless it has no valid sample, and the aggregate Wald
test sums `(coefficient / se)^2` over the retained groups.  Returns
`none` for fewer than 2 groups or when every comparison group is
dropped. -/
noncomputable def estimateCoxPH : List SurvivalData → (String → Option ℝ) → Option CoxPHResult
  | [], _ => none
  | ref :: rest, counts =>
    if (ref :: rest).length < 2 then none
    else
      let groups := coxGroupsGo counts ref.subtype ref.timePoints rest
      if groups = [] then none
      else
        let chiSquare := (groups.map (fun g => (g.coefficient / g.se) ^ 2)).sum
        some ⟨ref.subtype, groups,
              ⟨chiSquare, groups.length, 1 - chiSquareCDF chiSquare (groups.length : ℝ)⟩⟩

/-! ## Curve preprocessing (spec section 4.2) -/

/-- Stable insertion by time (auxiliary for the preprocessing sort). -/
noncomputable def insertByTime (p : SurvivalTimePoint) :
    List SurvivalTimePoint → List SurvivalTimePoint
  | [] => [p]
  | q :: qs => if p.time ≤ q.time then p :: q :: qs else q :: insertByTime p qs

/-- Stable sort of curve points by ascending time. -/
noncomputable def sortByTime : List SurvivalTimePoint → List SurvivalTimePoint
  | [] => []
  | p :: ps => insertByTime p (sortByTime ps)

/-- Modelled from the spec: the section 4.2 curve normalization (shared
preprocessing), which the spec requires both engines to apply but which
appears in the repository only in the presentation layer (the
SurvivalCurve component): points sorted ascending by time, then each
survival replaced by `min (previous cleaned survival) (raw survival)`
starting from `1.0`. -/
noncomputable def cleanPoints (pts : List SurvivalTimePoint) : List SurvivalTimePoint :=
  ((sortByTime pts).foldl (fun (st : ℝ × List SurvivalTimePoint) p =>
    let s := min st.1 p.survival
    (s, st.2 ++ [{ p with survival := s }])) (1.0, [])).2

/-- Modelled from the spec: section 4.2 normalization of a whole curve. -/
noncomputable def cleanCurve (c : SurvivalData) : SurvivalData :=
  ⟨c.subtype, cleanPoints c.timePoints⟩

/-- Projection of a time point to the pair of fields the engines read. -/
def tpProj (p : SurvivalTimePoint) : ℝ × ℝ := (p.time, p.survival)

/-- Sublist of map entries with time strictly before `t` (auxiliary for
the spec-style phrasing of the at-risk reconstruction). -/
noncomputable def entriesBefore (t : ℝ) : List (ℝ × ℝ) → List (ℝ × ℝ)
  | [] => []
  | e :: es => if e.1 < t then e :: entriesBefore t es else entriesBefore t es

/-- The survival "just before" a grid time as the spec phrases it: the
survival of the last map entry whose time is strictly before `t`
(`1.0` if there is none). -/
noncomputable def survBeforeSpec (pts : List SurvivalTimePoint) (t : ℝ) : ℝ :=
  (((entriesBefore t (tpEntries pts)).getLast?).map (·.2)).getD 1.0

/-- Short constructor for a time point with all optional fields absent. -/
def mkTP (t s : ℝ) : SurvivalTimePoint := ⟨t, s, none, none, none⟩

/-! ## Helper lemmas -/

lemma coxGroup_eq_none (counts : String → Option ℝ) (refName : String)
    (refPts : List SurvivalTimePoint) (g : SurvivalData)
    (h : hrSamples refPts g.timePoints = []) :
    coxGroup counts refName refPts g = none := by
  simp [coxGroup, h]

lemma coxGroupsGo_eq_nil (counts : String → Option ℝ) (refName : String)
    (refPts : List SurvivalTimePoint) (rest : List SurvivalData)
    (h : ∀ g ∈ rest, hrSamples refPts g.timePoints = []) :
    coxGroupsGo counts refName refPts rest = [] := by
  induction rest with
  | nil => rfl
  | cons g gs ih =>
    rw [coxGroupsGo, coxGroup_eq_none counts refName refPts g (h g (by simp))]
    exact ih fun g' hg' => h g' (by simp [hg'])

/-- C5: both engines signal insufficient input by returning `none`, never by
raising (the embedding is total): `logRankTest` returns `none` whenever fewer
than 2 groups are supplied, whenever the global time grid is empty, and
whenever the variance denominator is non-positive; `estimateCoxPH` returns
`none` whenever fewer than 2 groups are supplied and whenever every
non-reference group yields zero valid hazard-ratio samples. -/
theorem nullOnInsufficientInput :
    (∀ data : List SurvivalData, data.length < 2 → logRankTest data = none) ∧
    (∀ data : List SurvivalData, gridTimes data = [] → logRankTest data = none) ∧
    (∀ data : List SurvivalData, (lrNumDen data).2 ≤ 0 → logRankTest data = none) ∧
    (∀ (data : List SurvivalData) (counts : String → Option ℝ),
      data.length < 2 → estimateCoxPH data counts = none) ∧
    (∀ (ref : SurvivalData) (rest : List SurvivalData) (counts : String → Option ℝ),
      (∀ g ∈ rest, hrSamples ref.timePoints g.timePoints = []) →
      estimateCoxPH (ref :: rest) counts = none) := by
  refine ⟨?_, ?_, ?_, ?_, ?_⟩
  · intro data h; simp [logRankTest, h]
  · intro data h
    by_cases h2 : data.length < 2 <;> simp [logRankTest, h, h2]
  · intro data h
    by_cases h2 : data.length < 2
    · simp [logRankTest, h2]
    · by_cases h3 : gridTimes data = [] <;> simp [logRankTest, h2, h3, h]
  · intro data counts h
    cases data with
    | nil => simp [estimateCoxPH]
    | cons a l =>
      have hl : l = [] := by
        cases l with
        | nil => rfl
        | cons b m => simp at h; omega
      subst hl
      simp [estimateCoxPH]
  · intro ref rest counts h
    simp [estimateCoxPH, coxGroupsGo_eq_nil counts ref.subtype ref.timePoints rest h]

theorem nullOnInsufficientInput_witness :
    logRankTest [⟨"A", [mkTP 1 (1/2)]⟩] = none ∧
    logRankTest [⟨"A", []⟩, ⟨"B", []⟩] = none ∧
    estimateCoxPH [] noCounts = none ∧
    estimateCoxPH [⟨"A", [mkTP 1 (1/2)]⟩, ⟨"B", []⟩] noCounts = none := by
  refine ⟨nullOnInsufficientInput.1 _ (by norm_num),
          nullOnInsufficientInput.2.1 _ (by norm_num [gridTimes, dedupFirst, dedupFirstAux, sortTimes]),
          nullOnInsufficientInput.2.2.2.1 _ _ (by norm_num),
          nullOnInsufficientInput.2.2.2.2 _ _ _ ?_⟩
  intro g hg
  simp only [List.mem_singleton] at hg
  subst hg
  norm_num [hrSamples, commonTimes, commonTimesGo, hrSamplesGo, mkTP]

lemma foldl_lastSurv (t : ℝ) (l : List (ℝ × ℝ)) (init : ℝ) :
    l.foldl (fun last e => if e.1 < t then e.2 else last) init
      = (((entriesBefore t l).getLast?).map (·.2)).getD init := by
  induction l generalizing init with
  | nil => simp [entriesBefore]
  | cons e es ih =>
    rw [List.foldl_cons, entriesBefore]
    by_cases h : e.1 < t
    · rw [if_pos h, if_pos h, ih, List.getLast?_cons]
      cases hlast : (entriesBefore t es).getLast? <;> simp [hlast]
    · rw [if_neg h, if_neg h, ih]

/-- C1 (amended): the at-risk count reconstructed for a group at a grid time
equals `round (100 * s)`, where `s` is the raw survival of the last map entry
with time strictly before the grid time (`1.0` if none).  The initial count is
always the constant `100`: `logRankTest` accepts no subtype-counts mapping, and
the survival used is the raw stored value, not the monotonicity-cleaned one. -/
theorem atRisk_reconstruction (pts : List SurvivalTimePoint) (t : ℝ) :
    atRiskAt pts t = round ((100 : ℝ) * survBeforeSpec pts t) := by
  rw [atRiskAt, lastSurvBefore, survBeforeSpec, foldl_lastSurv]

theorem atRisk_reconstruction_counterexample :
    atRiskAt [mkTP 0 1] 5 = 100 ∧ round ((50 : ℝ) * 1) = 50 ∧
    atRiskAt [mkTP 1 (1/2), mkTP 2 (4/5)] 3 = 80 ∧ round ((100 : ℝ) * (1/2)) = 50 := by
  refine ⟨?_, by norm_num, ?_, by norm_num⟩ <;>
    norm_num [atRiskAt, lastSurvBefore, tpEntries, mkTP, List.foldl]

lemma commonTimesGo_self_mem (comp l : List ℝ) (t : ℝ) (h : t ∈ l) (hc : t ∈ comp)
    (hp : 0 < t) : t ∈ commonTimesGo comp l := by
  induction l with
  | nil => simp at h
  | cons u us ih =>
    rw [commonTimesGo]
    rcases List.mem_cons.mp h with rfl | h'
    · rw [if_pos ⟨hc, hp⟩]; exact List.mem_cons_self _ _
    · by_cases hu : u ∈ comp ∧ 0 < u
      · rw [if_pos hu]; exact List.mem_cons_of_mem _ (ih h')
      · rw [if_neg hu]; exact ih h'

lemma hrSamplesGo_self_all_one (c : List SurvivalTimePoint) (l : List ℝ) :
    ∀ x ∈ hrSamplesGo c c l, x = 1 := by
  induction l with
  | nil => simp [hrSamplesGo]
  | cons t ts ih =>
    intro x hx
    simp only [hrSamplesGo] at hx
    by_cases h : 0.05 < findSurv c t ∧ findSurv c t < 0.99 ∧ 0.05 < findSurv c t ∧
        findSurv c t < 0.99
    · rw [if_pos h] at hx
      have hlog : Real.log (findSurv c t) ≠ 0 :=
        ne_of_lt (Real.log_neg (by linarith [h.1]) (by linarith [h.2.1]))
      rw [div_self hlog, if_pos (by norm_num : (0:ℝ) < 1 ∧ (1:ℝ) < 100)] at hx
      rcases List.mem_cons.mp hx with rfl | hx'
      · rfl
      · exact ih x hx'
    · rw [if_neg h] at hx; exact ih x hx

lemma hrSamplesGo_self_ne_nil (c : List SurvivalTimePoint) (l : List ℝ) (t₀ : ℝ)
    (h0 : t₀ ∈ l) (hs1 : 0.05 < findSurv c t₀) (hs2 : findSurv c t₀ < 0.99) :
    hrSamplesGo c c l ≠ [] := by
  induction l with
  | nil => simp at h0
  | cons t ts ih =>
    simp only [hrSamplesGo]
    by_cases h : 0.05 < findSurv c t ∧ findSurv c t < 0.99 ∧ 0.05 < findSurv c t ∧
        findSurv c t < 0.99
    · rw [if_pos h]
      have hlog : Real.log (findSurv c t) ≠ 0 :=
        ne_of_lt (Real.log_neg (by linarith [h.1]) (by linarith [h.2.1]))
      rw [div_self hlog, if_pos (by norm_num : (0:ℝ) < 1 ∧ (1:ℝ) < 100)]
      exact List.cons_ne_nil _ _
    · rw [if_neg h]
      rcases List.mem_cons.mp h0 with rfl | h0'
      · exact absurd ⟨hs1, hs2, hs1, hs2⟩ h
      · exact ih h0'


lemma estimateCoxPH_pair (g1 g2 : SurvivalData) (cn : String → Option ℝ)
    (gr : HazardRatioGroup) (h : coxGroup cn g1.subtype g1.timePoints g2 = some gr) :
    estimateCoxPH [g1, g2] cn =
      some ⟨g1.subtype, [gr],
        ⟨(gr.coefficient / gr.se) ^ 2, 1,
         1 - chiSquareCDF ((gr.coefficient / gr.se) ^ 2) 1⟩⟩ := by
  simp [estimateCoxPH, coxGroupsGo, h]

/-- C7 (amended): when the curve contains at least one positive time whose
first point at that time has survival strictly between `0.05` and `0.99`,
comparing the curve against itself yields a non-null result with a single
group whose hazard ratio is exactly `1`. -/
theorem coxPH_self_comparison (n1 n2 : String) (c : List SurvivalTimePoint)
    (h : ∃ t ∈ c.map (·.time), 0 < t ∧ 0.05 < findSurv c t ∧ findSurv c t < 0.99) :
    ∃ r, estimateCoxPH [⟨n1, c⟩, ⟨n2, c⟩] noCounts = some r ∧
      r.groups.length = 1 ∧ ∀ g ∈ r.groups, g.hazardRatio = 1 := by
  obtain ⟨t₀, ht₀, hp, hs1, hs2⟩ := h
  have hmem : t₀ ∈ commonTimes c c := commonTimesGo_self_mem _ _ _ ht₀ ht₀ hp
  have hne : hrSamples c c ≠ [] := hrSamplesGo_self_ne_nil c _ t₀ hmem hs1 hs2
  have hsum : ((hrSamples c c).map Real.log).sum = 0 := by
    apply List.sum_eq_zero
    intro x hx
    rcases List.mem_map.mp hx with ⟨y, hy, rfl⟩
    rw [hrSamplesGo_self_all_one c _ y hy, Real.log_one]
  have hcg : ∃ gr : HazardRatioGroup, coxGroup noCounts n1 c ⟨n2, c⟩ = some gr ∧
      gr.hazardRatio = 1 := by
    simp only [coxGroup]
    rw [if_neg hne]
    refine ⟨_, rfl, ?_⟩
    simp only
    rw [hsum, zero_div, Real.exp_zero]
  obtain ⟨gr, hgr, hgr1⟩ := hcg
  refine ⟨_, estimateCoxPH_pair ⟨n1, c⟩ ⟨n2, c⟩ noCounts gr hgr, by simp, ?_⟩
  intro g hg
  simp only [List.mem_singleton] at hg
  subst hg
  exact hgr1

lemma lookupCount_pos (counts : String → Option ℝ)
    (hc : ∀ s v, counts s = some v → 0 < v) (s : String) : 0 < lookupCount counts s := by
  rw [lookupCount]
  split
  · rename_i v h
    by_cases hv : v = 0
    · rw [if_pos hv]; norm_num
    · rw [if_neg hv]; exact hc s v h
  · norm_num

lemma mem_coxGroupsGo (counts : String → Option ℝ) (refName : String)
    (refPts : List SurvivalTimePoint) (l : List SurvivalData) (g : HazardRatioGroup)
    (hg : g ∈ coxGroupsGo counts refName refPts l) :
    ∃ gd ∈ l, coxGroup counts refName refPts gd = some g := by
  induction l with
  | nil => simp [coxGroupsGo] at hg
  | cons d ds ih =>
    rw [coxGroupsGo] at hg
    cases h : coxGroup counts refName refPts d with
    | some r =>
      rw [h] at hg
      rcases List.mem_cons.mp hg with rfl | hg'
      · exact ⟨d, by simp, h⟩
      · obtain ⟨gd, hgd, hcg⟩ := ih hg'
        exact ⟨gd, by simp [hgd], hcg⟩
    | none =>
      rw [h] at hg
      obtain ⟨gd, hgd, hcg⟩ := ih hg
      exact ⟨gd, by simp [hgd], hcg⟩

lemma coxGroup_fields (counts : String → Option ℝ) (refName : String)
    (refPts : List SurvivalTimePoint) (gd : SurvivalData) (gr : HazardRatioGroup)
    (hc : ∀ s v, counts s = some v → 0 < v)
    (h : coxGroup counts refName refPts gd = some gr) :
    0 < gr.hazardRatio ∧ 0 < gr.lowerCI ∧ 0 < gr.upperCI ∧ 0 < gr.se ∧
    Real.sqrt (1 / lookupCount counts refName + 1 / lookupCount counts gd.subtype) * 0.5 ≤ gr.se ∧
    gr.lowerCI ≤ gr.hazardRatio ∧ gr.hazardRatio ≤ gr.upperCI ∧
    gr.coefficient = Real.log gr.hazardRatio ∧
    gr.lowerCI = Real.exp (gr.coefficient - 1.96 * gr.se) ∧
    gr.upperCI = Real.exp (gr.coefficient + 1.96 * gr.se) ∧
    ((hrSamples refPts gd.timePoints).length = 1 →
      gr.se = Real.sqrt (1 / lookupCount counts refName + 1 / lookupCount counts gd.subtype) * 0.5) := by
  simp only [coxGroup] at h
  by_cases hne : hrSamples refPts gd.timePoints = []
  · rw [if_pos hne] at h; exact absurd h (by simp)
  · rw [if_neg hne] at h
    have hfloor : 0 < Real.sqrt (1 / lookupCount counts refName +
        1 / lookupCount counts gd.subtype) * 0.5 := by
      have h1 := lookupCount_pos counts hc refName
      have h2 := lookupCount_pos counts hc gd.subtype
      have : 0 < 1 / lookupCount counts refName + 1 / lookupCount counts gd.subtype := by
        positivity
      positivity
    obtain rfl := (Option.some.inj h).symm
    refine ⟨Real.exp_pos _, Real.exp_pos _, Real.exp_pos _, ?_, ?_, ?_, ?_, ?_, rfl, rfl, ?_⟩
    · dsimp only
      exact lt_of_lt_of_le hfloor (le_max_right _ _)
    · dsimp only
      exact le_max_right _ _
    · dsimp only
      refine Real.exp_le_exp.mpr ?_
      have := lt_of_lt_of_le hfloor (le_max_right (Real.sqrt ((((hrSamples refPts
        gd.timePoints).map Real.log).map (fun lhr => (lhr - ((hrSamples refPts
        gd.timePoints).map Real.log).sum / (((hrSamples refPts gd.timePoints).map
        Real.log).length : ℝ)) ^ 2)).sum /
        (if (((hrSamples refPts gd.timePoints).map Real.log).length : ℝ) - 1 = 0 then 1
         else (((hrSamples refPts gd.timePoints).map Real.log).length : ℝ) - 1))) _)
      nlinarith [this]
    · dsimp only
      refine Real.exp_le_exp.mpr ?_
      have := lt_of_lt_of_le hfloor (le_max_right (Real.sqrt ((((hrSamples refPts
        gd.timePoints).map Real.log).map (fun lhr => (lhr - ((hrSamples refPts
        gd.timePoints).map Real.log).sum / (((hrSamples refPts gd.timePoints).map
        Real.log).length : ℝ)) ^ 2)).sum /
        (if (((hrSamples refPts gd.timePoints).map Real.log).length : ℝ) - 1 = 0 then 1
         else (((hrSamples refPts gd.timePoints).map Real.log).length : ℝ) - 1))) _)
      nlinarith [this]
    · dsimp only
      exact (Real.log_exp _).symm
    · intro hlen
      obtain ⟨x, hx⟩ := List.length_eq_one.mp hlen
      dsimp only
      simp only [hx, List.map_cons, List.map_nil, List.length_cons, List.length_nil,
        List.sum_cons, List.sum_nil]
      norm_num [max_eq_right hfloor.le]

/-- C8: in every non-null `estimateCoxPH` result computed from a positive
subtype-counts mapping, every `HazardRatioGroup` entry has positive
`hazardRatio`, `lowerCI`, `upperCI` and `se`, the interval brackets the
hazard ratio, `coefficient = ln hazardRatio`, and the interval endpoints are
`exp (coefficient ± 1.96 * se)`. -/
theorem hazardRatioGroup_invariants (data : List SurvivalData) (counts : String → Option ℝ)
    (hc : ∀ s v, counts s = some v → 0 < v) (r : CoxPHResult)
    (hr : estimateCoxPH data counts = some r) :
    ∀ g ∈ r.groups, 0 < g.hazardRatio ∧ 0 < g.lowerCI ∧ 0 < g.upperCI ∧ 0 < g.se ∧
      g.lowerCI ≤ g.hazardRatio ∧ g.hazardRatio ≤ g.upperCI ∧
      g.coefficient = Real.log g.hazardRatio ∧
      g.lowerCI = Real.exp (g.coefficient - 1.96 * g.se) ∧
      g.upperCI = Real.exp (g.coefficient + 1.96 * g.se) := by
  intro g hg
  cases data with
  | nil => exact absurd hr (by simp [estimateCoxPH])
  | cons ref rest =>
    rw [estimateCoxPH] at hr
    by_cases h2 : (ref :: rest).length < 2
    · rw [if_pos h2] at hr; exact absurd hr (by simp)
    · rw [if_neg h2] at hr
      by_cases h3 : coxGroupsGo counts ref.subtype ref.timePoints rest = []
      · rw [if_pos h3] at hr; exact absurd hr (by simp)
      · rw [if_neg h3] at hr
        obtain rfl := (Option.some.inj hr).symm
        simp only at hg
        obtain ⟨gd, _, hcg⟩ := mem_coxGroupsGo counts ref.subtype ref.timePoints rest g hg
        obtain ⟨p1, p2, p3, p4, _, p6, p7, p8, p9, p10, _⟩ :=
          coxGroup_fields counts ref.subtype ref.timePoints gd g hc hcg
        exact ⟨p1, p2, p3, p4, p6, p7, p8, p9, p10⟩

lemma hrs_sample :
    hrSamples [mkTP 1 (1/2)] [mkTP 1 (3/10)] = [Real.log (3/10) / Real.log (1/2)] := by
  have h03 : Real.log ((3:ℝ)/10) < 0 := Real.log_neg (by norm_num) (by norm_num)
  have h05 : Real.log ((1:ℝ)/2) < 0 := Real.log_neg (by norm_num) (by norm_num)
  have hpos : 0 < Real.log ((3:ℝ)/10) / Real.log ((1:ℝ)/2) := div_pos_of_neg_of_neg h03 h05
  have hlt : Real.log ((3:ℝ)/10) / Real.log ((1:ℝ)/2) < 100 := by
    rw [div_lt_iff_of_neg h05,
      show (100:ℝ) * Real.log ((1:ℝ)/2) = Real.log (((1:ℝ)/2) ^ (100:ℕ)) by
        rw [Real.log_pow]; ring]
    exact Real.log_lt_log (by positivity) (by norm_num)
  norm_num [hrSamples, commonTimes, commonTimesGo, hrSamplesGo, findSurv, mkTP, hpos, hlt]

lemma coxGroup_sample :
    ∃ gr, coxGroup noCounts ("A") [mkTP 1 (1/2)] ⟨("B"), [mkTP 1 (3/10)]⟩ = some gr := by
  simp only [coxGroup, hrs_sample]
  rw [if_neg (by simp)]
  exact ⟨_, rfl⟩

theorem hazardRatioGroup_invariants_witness :
    ∃ r, estimateCoxPH [⟨("A"), [mkTP 1 (1/2)]⟩, ⟨("B"), [mkTP 1 (3/10)]⟩] noCounts = some r ∧
      ∀ g ∈ r.groups, 0 < g.hazardRatio ∧ 0 < g.lowerCI ∧ 0 < g.upperCI ∧ 0 < g.se ∧
        g.lowerCI ≤ g.hazardRatio ∧ g.hazardRatio ≤ g.upperCI ∧
        g.coefficient = Real.log g.hazardRatio ∧
        g.lowerCI = Real.exp (g.coefficient - 1.96 * g.se) ∧
        g.upperCI = Real.exp (g.coefficient + 1.96 * g.se) := by
  obtain ⟨gr, hgr⟩ := coxGroup_sample
  have hpair := estimateCoxPH_pair ⟨("A"), [mkTP 1 (1/2)]⟩ ⟨("B"), [mkTP 1 (3/10)]⟩ noCounts gr hgr
  exact ⟨_, hpair,
    hazardRatioGroup_invariants _ _ (by intro s v hv; simp [noCounts] at hv) _ hpair⟩

lemma lookupCount_noCounts (s : String) : lookupCount noCounts s = 100 := by
  rw [lookupCount]; rfl

/-- C9: for every retained group the standard error is at least the floor
`sqrt (1/n1 + 1/n2) * 0.5 > 0` (counts positive, 100 by default), so the
divisions `coefficient / se` in the per-group Wald z-statistic and in the
aggregate Wald chi-square never divide by zero; with exactly one valid
hazard-ratio sample the empirical standard deviation is 0 and `se` equals the
floor exactly. -/
theorem se_floor (counts : String → Option ℝ) (refName : String)
    (refPts : List SurvivalTimePoint) (gd : SurvivalData)
    (hc : ∀ s v, counts s = some v → 0 < v) (gr : HazardRatioGroup)
    (h : coxGroup counts refName refPts gd = some gr) :
    (0 < Real.sqrt (1 / lookupCount counts refName + 1 / lookupCount counts gd.subtype) * 0.5 ∧
     Real.sqrt (1 / lookupCount counts refName + 1 / lookupCount counts gd.subtype) * 0.5 ≤ gr.se ∧
     gr.se ≠ 0) ∧
    ((hrSamples refPts gd.timePoints).length = 1 →
      gr.se = Real.sqrt (1 / lookupCount counts refName + 1 / lookupCount counts gd.subtype) * 0.5) := by
  have hfloor : 0 < Real.sqrt (1 / lookupCount counts refName +
      1 / lookupCount counts gd.subtype) * 0.5 := by
    have h1 := lookupCount_pos counts hc refName
    have h2 := lookupCount_pos counts hc gd.subtype
    have : 0 < 1 / lookupCount counts refName + 1 / lookupCount counts gd.subtype := by
      positivity
    positivity
  obtain ⟨_, _, _, p4, p5, _, _, _, _, _, p11⟩ :=
    coxGroup_fields counts refName refPts gd gr hc h
  exact ⟨⟨hfloor, p5, ne_of_gt p4⟩, p11⟩

theorem se_floor_witness :
    ∃ gr, coxGroup noCounts ("A") [mkTP 1 (1/2)] ⟨("B"), [mkTP 1 (3/10)]⟩ = some gr ∧
      0 < gr.se ∧ gr.se = Real.sqrt (1 / 100 + 1 / 100) * 0.5 := by
  obtain ⟨gr, hgr⟩ := coxGroup_sample
  have hf := se_floor noCounts ("A") [mkTP 1 (1/2)] ⟨("B"), [mkTP 1 (3/10)]⟩
    (by intro s v hv; simp [noCounts] at hv) gr hgr
  refine ⟨gr, hgr, lt_of_lt_of_le hf.1.1 hf.1.2.1, ?_⟩
  have hlen := hf.2 (by rw [hrs_sample]; rfl)
  rw [hlen, lookupCount_noCounts, lookupCount_noCounts]

lemma cleanCurve_eq_self (c : SurvivalData) (h : cleanPoints c.timePoints = c.timePoints) :
    cleanCurve c = c := by
  cases c with
  | mk s pts =>
    simp only [cleanCurve]
    simp only at h
    rw [h]

/-- C2 (amended): neither engine applies the section 4.2 normalization; both
read the raw survival values.  Consequently the two runs agree with the
normalized run exactly when normalization is the identity: for input curves
already equal to their cleaned form, running either engine on the cleaned
curves equals running it on the raw curves. -/
theorem engines_on_clean_curves (data : List SurvivalData)
    (h : ∀ c ∈ data, cleanPoints c.timePoints = c.timePoints) :
    logRankTest (data.map cleanCurve) = logRankTest data ∧
    ∀ counts, estimateCoxPH (data.map cleanCurve) counts = estimateCoxPH data counts := by
  have hmap : data.map cleanCurve = data := by
    induction data with
    | nil => rfl
    | cons c cs ih =>
      rw [List.map_cons, cleanCurve_eq_self c (h c (by simp)),
        ih (fun c' hc' => h c' (by simp [hc']))]
  rw [hmap]
  exact ⟨rfl, fun _ => rfl⟩

lemma cleanPoints_single : cleanPoints [mkTP 2 (1/2)] = [mkTP 2 (1/2)] := by
  norm_num [cleanPoints, sortByTime, insertByTime, mkTP, List.foldl, min_def]

lemma cleanPoints_pair :
    cleanPoints [mkTP 1 (3/10), mkTP 2 (9/10)] = [mkTP 1 (3/10), mkTP 2 (3/10)] := by
  norm_num [cleanPoints, sortByTime, insertByTime, mkTP, List.foldl, min_def]

theorem engines_on_clean_curves_witness :
    logRankTest ([⟨("A"), [mkTP 2 (1/2)]⟩].map cleanCurve) = logRankTest [⟨("A"), [mkTP 2 (1/2)]⟩] ∧
    ∀ counts, estimateCoxPH ([⟨("A"), [mkTP 2 (1/2)]⟩].map cleanCurve) counts =
      estimateCoxPH [⟨("A"), [mkTP 2 (1/2)]⟩] counts := by
  refine engines_on_clean_curves _ ?_
  intro c hc
  simp only [List.mem_singleton] at hc
  subst hc
  exact cleanPoints_single

lemma log_ratio_pos (a : ℝ) (ha0 : 0 < a) (ha1 : a < 1) :
    0 < Real.log a / Real.log (1/2) :=
  div_pos_of_neg_of_neg (Real.log_neg ha0 ha1) (Real.log_neg (by norm_num) (by norm_num))

lemma log_ratio_lt_100 (a : ℝ) (ha : (1/2 : ℝ) ^ (100 : ℕ) < a) :
    Real.log a / Real.log (1/2) < 100 := by
  have h05 : Real.log ((1:ℝ)/2) < 0 := Real.log_neg (by norm_num) (by norm_num)
  rw [div_lt_iff_of_neg h05,
    show (100:ℝ) * Real.log ((1:ℝ)/2) = Real.log (((1:ℝ)/2) ^ (100:ℕ)) by
      rw [Real.log_pow]; ring]
  exact Real.log_lt_log (by positivity) ha

lemma hrs_sample_raw :
    hrSamples [mkTP 2 (1/2)] [mkTP 1 (3/10), mkTP 2 (9/10)] =
      [Real.log (9/10) / Real.log (1/2)] := by
  have hpos := log_ratio_pos (9/10) (by norm_num) (by norm_num)
  have hlt := log_ratio_lt_100 (9/10) (by norm_num)
  norm_num [hrSamples, commonTimes, commonTimesGo, hrSamplesGo, findSurv, mkTP, hpos, hlt]

lemma hrs_sample_clean :
    hrSamples [mkTP 2 (1/2)] [mkTP 1 (3/10), mkTP 2 (3/10)] =
      [Real.log (3/10) / Real.log (1/2)] := by
  have hpos := log_ratio_pos (3/10) (by norm_num) (by norm_num)
  have hlt := log_ratio_lt_100 (3/10) (by norm_num)
  norm_num [hrSamples, commonTimes, commonTimesGo, hrSamplesGo, findSurv, mkTP, hpos, hlt]

lemma coxGroup_hr_raw :
    ∃ gr, coxGroup noCounts ("A") [mkTP 2 (1/2)] ⟨("B"), [mkTP 1 (3/10), mkTP 2 (9/10)]⟩ =
      some gr ∧ gr.hazardRatio = Real.log (9/10) / Real.log (1/2) := by
  simp only [coxGroup, hrs_sample_raw]
  rw [if_neg (by simp)]
  refine ⟨_, rfl, ?_⟩
  dsimp only
  simp only [List.map_cons, List.map_nil, List.sum_cons, List.sum_nil, List.length_cons,
    List.length_nil]
  norm_num [Real.exp_log (log_ratio_pos (9/10) (by norm_num) (by norm_num))]

lemma coxGroup_hr_clean :
    ∃ gr, coxGroup noCounts ("A") [mkTP 2 (1/2)] ⟨("B"), [mkTP 1 (3/10), mkTP 2 (3/10)]⟩ =
      some gr ∧ gr.hazardRatio = Real.log (3/10) / Real.log (1/2) := by
  simp only [coxGroup, hrs_sample_clean]
  rw [if_neg (by simp)]
  refine ⟨_, rfl, ?_⟩
  dsimp only
  simp only [List.map_cons, List.map_nil, List.sum_cons, List.sum_nil, List.length_cons,
    List.length_nil]
  norm_num [Real.exp_log (log_ratio_pos (3/10) (by norm_num) (by norm_num))]

/-- C2 (counterexample): on a curve that violates monotonicity, running
`estimateCoxPH` on the raw curves differs from running it on the sorted,
monotonicity-forced curves, so the engines do not normalize first. -/
theorem normalization_counterexample :
    estimateCoxPH [⟨("A"), [mkTP 2 (1/2)]⟩, ⟨("B"), [mkTP 1 (3/10), mkTP 2 (9/10)]⟩] noCounts ≠
    estimateCoxPH
      ([⟨("A"), [mkTP 2 (1/2)]⟩, ⟨("B"), [mkTP 1 (3/10), mkTP 2 (9/10)]⟩].map cleanCurve)
      noCounts := by
  intro heq
  have hclean : [⟨("A"), [mkTP 2 (1/2)]⟩, ⟨("B"), [mkTP 1 (3/10), mkTP 2 (9/10)]⟩].map cleanCurve
      = [⟨("A"), [mkTP 2 (1/2)]⟩, ⟨("B"), [mkTP 1 (3/10), mkTP 2 (3/10)]⟩] := by
    simp only [List.map_cons, List.map_nil, cleanCurve, cleanPoints_single, cleanPoints_pair]
  rw [hclean] at heq
  obtain ⟨gr1, hgr1, hr1⟩ := coxGroup_hr_raw
  obtain ⟨gr2, hgr2, hr2⟩ := coxGroup_hr_clean
  rw [estimateCoxPH_pair _ _ _ _ hgr1, estimateCoxPH_pair _ _ _ _ hgr2] at heq
  have hgroups := congrArg (fun r => r.groups) (Option.some.inj heq)
  simp only at hgroups
  have hgr : gr1 = gr2 := by
    injection hgroups
  have hhr : Real.log (9/10) = Real.log (3/10) := by
    have h05 : Real.log ((1:ℝ)/2) ≠ 0 :=
      ne_of_lt (Real.log_neg (by norm_num) (by norm_num))
    have := hr1.symm.trans (hgr ▸ hr2)
    field_simp [h05] at this
    exact this
  have h2 := congrArg Real.exp hhr
  rw [Real.exp_log (by norm_num : (0:ℝ) < 9/10),
    Real.exp_log (by norm_num : (0:ℝ) < 3/10)] at h2
  norm_num at h2

/-- C7 (counterexample): a curve with two points at the same positive time,
the first of which has survival `0.995`, contains a point with time `> 0` and
survival strictly inside `(0.05, 0.99)`, yet `estimateCoxPH` on the curve
paired with itself returns `none` (the first-match lookup only ever sees the
`0.995` point, so no sample survives the survival filter). -/
theorem coxPH_self_comparison_counterexample :
    (∃ p ∈ [mkTP 1 (199/200), mkTP 1 (1/2)], 0 < p.time ∧
      0.05 < p.survival ∧ p.survival < 0.99) ∧
    estimateCoxPH [⟨("A"), [mkTP 1 (199/200), mkTP 1 (1/2)]⟩,
                   ⟨("A"), [mkTP 1 (199/200), mkTP 1 (1/2)]⟩] noCounts = none := by
  constructor
  · exact ⟨mkTP 1 (1/2), by simp, by norm_num [mkTP], by norm_num [mkTP], by norm_num [mkTP]⟩
  · have hnil : hrSamples [mkTP 1 (199/200), mkTP 1 (1/2)]
        [mkTP 1 (199/200), mkTP 1 (1/2)] = [] := by
      norm_num [hrSamples, commonTimes, commonTimesGo, hrSamplesGo, findSurv, mkTP]
    have hcg : coxGroup noCounts ("A") [mkTP 1 (199/200), mkTP 1 (1/2)]
        ⟨("A"), [mkTP 1 (199/200), mkTP 1 (1/2)]⟩ = none :=
      coxGroup_eq_none _ _ _ _ hnil
    simp only [estimateCoxPH, coxGroupsGo, hcg]
    norm_num

theorem coxPH_self_comparison_witness :
    ∃ r, estimateCoxPH [⟨("A"), [mkTP 1 (1/2)]⟩, ⟨("B"), [mkTP 1 (1/2)]⟩] noCounts = some r ∧
      r.groups.length = 1 ∧ ∀ g ∈ r.groups, g.hazardRatio = 1 := by
  refine coxPH_self_comparison ("A") ("B") [mkTP 1 (1/2)] ⟨1, by simp [mkTP], by norm_num, ?_, ?_⟩ <;>
    norm_num [findSurv, mkTP]

lemma lrContrib_pair_self (s1 s2 : String) (pts : List SurvivalTimePoint)
    (grid : List ℝ) (t : ℝ) :
    (lrContrib [⟨s1, pts⟩, ⟨s2, pts⟩] grid t).1 = 0 := by
  rw [lrContrib]
  simp only [List.map_cons, List.map_nil, List.sum_cons, List.sum_nil]
  by_cases h : 0 < atRiskAt pts t + (atRiskAt pts t + 0) ∧
      0 < eventsGet pts grid t + (eventsGet pts grid t + 0)
  · rw [if_pos h]
    dsimp only
    simp only [List.zip_cons_cons, List.zip_nil_right, List.dropLast_cons₂,
      List.dropLast_single, List.foldl_cons, List.foldl_nil]
    have ha : (0:ℝ) < (atRiskAt pts t : ℝ) := by
      have : 0 < atRiskAt pts t := by omega
      exact_mod_cast this
    push_cast
    field_simp
    ring
  · rw [if_neg h]

lemma foldl_add_fst (f : ℝ → ℝ × ℝ) (l : List ℝ) (init : ℝ × ℝ)
    (h : ∀ t ∈ l, (f t).1 = 0) :
    (l.foldl (fun acc t => (acc.1 + (f t).1, acc.2 + (f t).2)) init).1 = init.1 := by
  induction l generalizing init with
  | nil => rfl
  | cons t ts ih =>
    rw [List.foldl_cons, ih _ (fun u hu => h u (by simp [hu]))]
    simp [h t (by simp)]

/-- C6: the log-rank test on two identical curves (same point sequences)
yields, whenever the result is non-null, a chi-square statistic exactly `0`
and a p-value within `1e-8` of `1` (its exact value is `0.999999999`). -/
theorem logrank_identical (s₁ s₂ : String) (pts : List SurvivalTimePoint) (r : LogRankResult)
    (h : logRankTest [⟨s₁, pts⟩, ⟨s₂, pts⟩] = some r) :
    r.chiSquare = 0 ∧ |r.pValue - 1| ≤ 1e-8 := by
  have hnum : (lrNumDen [⟨s₁, pts⟩, ⟨s₂, pts⟩]).1 = 0 := by
    rw [lrNumDen]
    dsimp only
    exact foldl_add_fst _ _ _ (fun t _ => lrContrib_pair_self s₁ s₂ pts _ t)
  rw [logRankTest] at h
  rw [if_neg (by norm_num)] at h
  by_cases hgrid : gridTimes [⟨s₁, pts⟩, ⟨s₂, pts⟩] = []
  · rw [if_pos hgrid] at h; exact absurd h (by simp)
  · rw [if_neg hgrid] at h
    dsimp only at h
    by_cases hden : (lrNumDen [⟨s₁, pts⟩, ⟨s₂, pts⟩]).2 ≤ 0
    · rw [if_pos hden] at h; exact absurd h (by simp)
    · rw [if_neg hden] at h
      obtain rfl := (Option.some.inj h).symm
      refine ⟨?_, ?_⟩
      · dsimp only
        rw [hnum]
        ring
      · dsimp only
        rw [hnum, zero_mul, zero_div]
        norm_num [chiSquarePValue, inlineNormalCDF, asPoly, Real.sqrt_zero, Real.exp_zero]
        rw [abs_of_nonneg (by norm_num : (0:ℝ) ≤ 1 / 1000000000)]
        norm_num

theorem logrank_identical_witness :
    ∃ r, logRankTest [⟨("A"), [mkTP 0 1, mkTP 1 (1/2)]⟩,
                      ⟨("B"), [mkTP 0 1, mkTP 1 (1/2)]⟩] = some r ∧
      r.chiSquare = 0 ∧ |r.pValue - 1| ≤ 1e-8 := by
  have hsome : ∃ r, logRankTest [⟨("A"), [mkTP 0 1, mkTP 1 (1/2)]⟩,
      ⟨("B"), [mkTP 0 1, mkTP 1 (1/2)]⟩] = some r := by
    have hgrid : gridTimes [⟨("A"), [mkTP 0 1, mkTP 1 (1/2)]⟩,
        ⟨("B"), [mkTP 0 1, mkTP 1 (1/2)]⟩] = [0, 1] := by
      norm_num [gridTimes, dedupFirst, dedupFirstAux, sortTimes, sortedInsert, mkTP]
    have hden : (lrNumDen [⟨("A"), [mkTP 0 1, mkTP 1 (1/2)]⟩,
        ⟨("B"), [mkTP 0 1, mkTP 1 (1/2)]⟩]).2 = 2500 / 199 := by
      rw [lrNumDen, hgrid]
      norm_num [lrContrib, atRiskAt, lastSurvBefore, eventsGet, eventsList, tpGet, tpEntries,
        lookupKey, mkTP, List.foldl]
    rw [logRankTest, if_neg (by norm_num), if_neg (by rw [hgrid]; exact List.cons_ne_nil _ _)]
    dsimp only
    rw [if_neg (by rw [hden]; norm_num)]
    exact ⟨_, rfl⟩
  obtain ⟨r, hr⟩ := hsome
  exact ⟨r, hr, logrank_identical ("A") ("B") [mkTP 0 1, mkTP 1 (1/2)] r hr⟩

lemma proj_fields {p q : SurvivalTimePoint} (h : tpProj p = tpProj q) :
    p.time = q.time ∧ p.survival = q.survival := by
  simp only [tpProj, Prod.mk.injEq] at h
  exact h

lemma map_time_of_proj (p1 p2 : List SurvivalTimePoint)
    (h : p1.map tpProj = p2.map tpProj) : p1.map (·.time) = p2.map (·.time) := by
  induction p1 generalizing p2 with
  | nil => cases p2 with
    | nil => rfl
    | cons q qs => simp at h
  | cons p ps ih =>
    cases p2 with
    | nil => simp at h
    | cons q qs =>
      simp only [List.map_cons, List.cons.injEq] at h ⊢
      exact ⟨(proj_fields h.1).1, ih qs h.2⟩

lemma tpEntries_congr (p1 p2 : List SurvivalTimePoint)
    (h : p1.map tpProj = p2.map tpProj) : tpEntries p1 = tpEntries p2 := by
  rw [tpEntries, tpEntries]
  suffices H : ∀ (q1 : List SurvivalTimePoint), ∀ (q2 : List SurvivalTimePoint),
      q1.map tpProj = q2.map tpProj → ∀ (acc : List (ℝ × ℝ)),
      q1.foldl (fun l p =>
        if ∃ e ∈ l, e.1 = p.time then
          l.map (fun e => if e.1 = p.time then (e.1, p.survival) else e)
        else l ++ [(p.time, p.survival)]) acc =
      q2.foldl (fun l p =>
        if ∃ e ∈ l, e.1 = p.time then
          l.map (fun e => if e.1 = p.time then (e.1, p.survival) else e)
        else l ++ [(p.time, p.survival)]) acc from H p1 p2 h []
  intro q1
  induction q1 with
  | nil =>
    intro q2 h acc
    cases q2 with
    | nil => rfl
    | cons q qs => simp at h
  | cons p ps ih =>
    intro q2 h acc
    cases q2 with
    | nil => simp at h
    | cons q qs =>
      simp only [List.map_cons, List.cons.injEq] at h
      obtain ⟨ht, hs⟩ := proj_fields h.1
      rw [List.foldl_cons, List.foldl_cons, ht, hs]
      exact ih qs h.2 _

lemma tpGet_congr (p1 p2 : List SurvivalTimePoint)
    (h : p1.map tpProj = p2.map tpProj) (t : ℝ) : tpGet p1 t = tpGet p2 t := by
  rw [tpGet, tpGet, tpEntries_congr p1 p2 h]

lemma eventsList_congr (p1 p2 : List SurvivalTimePoint)
    (h : p1.map tpProj = p2.map tpProj) (grid : List ℝ) :
    eventsList p1 grid = eventsList p2 grid := by
  simp only [eventsList, tpGet, tpEntries_congr p1 p2 h]

lemma eventsGet_congr (p1 p2 : List SurvivalTimePoint)
    (h : p1.map tpProj = p2.map tpProj) (grid : List ℝ) (t : ℝ) :
    eventsGet p1 grid t = eventsGet p2 grid t := by
  rw [eventsGet, eventsGet, eventsList_congr p1 p2 h]

lemma atRiskAt_congr (p1 p2 : List SurvivalTimePoint)
    (h : p1.map tpProj = p2.map tpProj) (t : ℝ) : atRiskAt p1 t = atRiskAt p2 t := by
  rw [atRiskAt, atRiskAt, lastSurvBefore, lastSurvBefore, tpEntries_congr p1 p2 h]

lemma findSurv_congr (p1 p2 : List SurvivalTimePoint)
    (h : p1.map tpProj = p2.map tpProj) (t : ℝ) : findSurv p1 t = findSurv p2 t := by
  induction p1 generalizing p2 with
  | nil => cases p2 with
    | nil => rfl
    | cons q qs => simp at h
  | cons p ps ih =>
    cases p2 with
    | nil => simp at h
    | cons q qs =>
      simp only [List.map_cons, List.cons.injEq] at h
      obtain ⟨ht, hs⟩ := proj_fields h.1
      rw [findSurv, findSurv, ht, hs, ih qs h.2]

lemma hrSamples_congr (r1 r2 c1 c2 : List SurvivalTimePoint)
    (hr : r1.map tpProj = r2.map tpProj) (hc : c1.map tpProj = c2.map tpProj) :
    hrSamples r1 c1 = hrSamples r2 c2 := by
  rw [hrSamples, hrSamples, commonTimes, commonTimes, map_time_of_proj r1 r2 hr,
    map_time_of_proj c1 c2 hc]
  generalize commonTimesGo (c2.map (·.time)) (r2.map (·.time)) = l
  induction l with
  | nil => rfl
  | cons t ts ih =>
    simp only [hrSamplesGo, findSurv_congr r1 r2 hr t, findSurv_congr c1 c2 hc t, ih]

lemma coxGroup_congr (counts : String → Option ℝ) (n : String)
    (r1 r2 : List SurvivalTimePoint) (g1 g2 : SurvivalData)
    (hr : r1.map tpProj = r2.map tpProj) (hsub : g1.subtype = g2.subtype)
    (hg : g1.timePoints.map tpProj = g2.timePoints.map tpProj) :
    coxGroup counts n r1 g1 = coxGroup counts n r2 g2 := by
  simp only [coxGroup, hrSamples_congr r1 r2 g1.timePoints g2.timePoints hr hg, hsub]

lemma coxGroupsGo_congr (counts : String → Option ℝ) (n : String)
    (r1 r2 : List SurvivalTimePoint) (l1 l2 : List SurvivalData)
    (hr : r1.map tpProj = r2.map tpProj)
    (h : List.Forall₂ (fun g1 g2 => g1.subtype = g2.subtype ∧
      g1.timePoints.map tpProj = g2.timePoints.map tpProj) l1 l2) :
    coxGroupsGo counts n r1 l1 = coxGroupsGo counts n r2 l2 := by
  induction h with
  | nil => rfl
  | cons hgg hrest ih =>
    rw [coxGroupsGo, coxGroupsGo, coxGroup_congr counts n r1 r2 _ _ hr hgg.1 hgg.2, ih]

lemma map_congr_forall₂ {α : Type} (f g : SurvivalData → α) (d1 d2 : List SurvivalData)
    (h : List.Forall₂ (fun g1 g2 => g1.subtype = g2.subtype ∧
      g1.timePoints.map tpProj = g2.timePoints.map tpProj) d1 d2)
    (hfg : ∀ a b, a.subtype = b.subtype → a.timePoints.map tpProj = b.timePoints.map tpProj →
      f a = g b) :
    d1.map f = d2.map g := by
  induction h with
  | nil => rfl
  | cons hgg hrest ih =>
    simp only [List.map_cons, List.cons.injEq]
    exact ⟨hfg _ _ hgg.1 hgg.2, ih⟩

lemma grids_congr (d1 d2 : List SurvivalData)
    (h : List.Forall₂ (fun g1 g2 => g1.subtype = g2.subtype ∧
      g1.timePoints.map tpProj = g2.timePoints.map tpProj) d1 d2) :
    gridTimes d1 = gridTimes d2 := by
  rw [gridTimes, gridTimes,
    map_congr_forall₂ _ _ d1 d2 h (fun a b _ hab => map_time_of_proj _ _ hab)]

lemma lrContrib_congr (d1 d2 : List SurvivalData)
    (h : List.Forall₂ (fun g1 g2 => g1.subtype = g2.subtype ∧
      g1.timePoints.map tpProj = g2.timePoints.map tpProj) d1 d2)
    (grid : List ℝ) (t : ℝ) : lrContrib d1 grid t = lrContrib d2 grid t := by
  rw [lrContrib, lrContrib,
    map_congr_forall₂ _ _ d1 d2 h (fun a b _ hab => atRiskAt_congr _ _ hab t),
    map_congr_forall₂ _ _ d1 d2 h (fun a b _ hab => eventsGet_congr _ _ hab grid t)]

lemma logRankTest_congr (d1 d2 : List SurvivalData)
    (h : List.Forall₂ (fun g1 g2 => g1.subtype = g2.subtype ∧
      g1.timePoints.map tpProj = g2.timePoints.map tpProj) d1 d2) :
    logRankTest d1 = logRankTest d2 := by
  have hlen := h.length_eq
  have hgrid := grids_congr d1 d2 h
  have hnd : lrNumDen d1 = lrNumDen d2 := by
    rw [lrNumDen, lrNumDen, hgrid]
    simp only [lrContrib_congr d1 d2 h (gridTimes d2)]
  rw [logRankTest, logRankTest, hlen, hgrid, hnd]

lemma estimateCoxPH_congr (d1 d2 : List SurvivalData)
    (h : List.Forall₂ (fun g1 g2 => g1.subtype = g2.subtype ∧
      g1.timePoints.map tpProj = g2.timePoints.map tpProj) d1 d2)
    (counts : String → Option ℝ) : estimateCoxPH d1 counts = estimateCoxPH d2 counts := by
  cases h with
  | nil => rfl
  | @cons ref1 ref2 rest1 rest2 hgg hrest =>
    have hlen : rest1.length = rest2.length := hrest.length_eq
    rw [estimateCoxPH, estimateCoxPH, hgg.1,
      show (ref1 :: rest1).length = (ref2 :: rest2).length by simp [hlen],
      coxGroupsGo_congr counts ref2.subtype ref1.timePoints ref2.timePoints rest1 rest2
        hgg.2 hrest]

/-- C10: both engines read only `time` and `survival` from each point: two
inputs that agree groupwise on subtype and on the ordered `(time, survival)`
sequences produce identical results, whatever the per-point `censored`,
`events` and `atRisk` fields contain. -/
theorem engines_ignore_extra_fields (d1 d2 : List SurvivalData)
    (h : List.Forall₂ (fun g1 g2 => g1.subtype = g2.subtype ∧
      g1.timePoints.map tpProj = g2.timePoints.map tpProj) d1 d2) :
    logRankTest d1 = logRankTest d2 ∧
    ∀ counts, estimateCoxPH d1 counts = estimateCoxPH d2 counts :=
  ⟨logRankTest_congr d1 d2 h, fun counts => estimateCoxPH_congr d1 d2 h counts⟩

theorem engines_ignore_extra_fields_witness :
    logRankTest [⟨("A"), [⟨1, 1/2, some 3, some 7, some 9⟩]⟩, ⟨("B"), [mkTP 1 (3/10)]⟩] =
      logRankTest [⟨("A"), [mkTP 1 (1/2)]⟩, ⟨("B"), [mkTP 1 (3/10)]⟩] ∧
    ∀ counts,
      estimateCoxPH [⟨("A"), [⟨1, 1/2, some 3, some 7, some 9⟩]⟩,
        ⟨("B"), [mkTP 1 (3/10)]⟩] counts =
      estimateCoxPH [⟨("A"), [mkTP 1 (1/2)]⟩, ⟨("B"), [mkTP 1 (3/10)]⟩] counts :=
  engines_ignore_extra_fields _ _ (by
    refine List.Forall₂.cons ⟨rfl, ?_⟩ (List.Forall₂.cons ⟨rfl, rfl⟩ List.Forall₂.nil)
    simp [tpProj, mkTP])

/-- C3: evaluation of the code at the failing input `chiSquare = 1, df = 1`:
the `df = 1` log-rank p-value differs from `2 * (1 - normalCDF (sqrt 1))`,
because the CDF inlined in `chiSquarePValue` evaluates the shared polynomial
at `t = 1 / (1 + p * |z|)` whereas `normalCDF` rescales the argument by
`1 / sqrt 2`; at `z = 1` the two polynomial arguments give values on opposite
sides of `1/2`. -/
theorem df1_pvalue_cdf_mismatch :
    chiSquarePValue 1 1 ≠ 2 * (1 - normalCDF (Real.sqrt 1)) := by
  have hs2 : Real.sqrt 2 * Real.sqrt 2 = 2 := Real.mul_self_sqrt (by norm_num)
  have hspos : (0:ℝ) < Real.sqrt 2 := Real.sqrt_pos.mpr (by norm_num)
  have hsl : (1.41421356 : ℝ) < Real.sqrt 2 := (Real.lt_sqrt (by norm_num)).mpr (by norm_num)
  have hsu : Real.sqrt 2 < 1.41421357 := (Real.sqrt_lt' (by norm_num)).mpr (by norm_num)
  have hil : (0.70710677 : ℝ) < (Real.sqrt 2)⁻¹ := by
    calc (0.70710677:ℝ) < (1.41421357:ℝ)⁻¹ := by norm_num
    _ < (Real.sqrt 2)⁻¹ := inv_strictAnti₀ hspos hsu
  have hiu : (Real.sqrt 2)⁻¹ < 0.70710679 := by
    calc (Real.sqrt 2)⁻¹ < (1.41421356:ℝ)⁻¹ := inv_strictAnti₀ (by norm_num) hsl
    _ < 0.70710679 := by norm_num
  have hP1 : asPoly ((10000000:ℝ)/13275911) < 1/2 := by
    rw [asPoly]; norm_num
  have hP2 : (1/2:ℝ) < asPoly ((1 + 3275911/10000000 * (Real.sqrt 2)⁻¹)⁻¹) := by
    have hql : (0.2316418:ℝ) < 3275911/10000000 * (Real.sqrt 2)⁻¹ := by nlinarith [hil]
    have hqu : (3275911:ℝ)/10000000 * (Real.sqrt 2)⁻¹ < 0.2316420 := by nlinarith [hiu]
    set q : ℝ := 3275911/10000000 * (Real.sqrt 2)⁻¹ with hq
    have h1 : (0:ℝ) < 1 + q := by linarith
    have hinv1 : (1 + q) * (1 + q)⁻¹ = 1 := mul_inv_cancel₀ (ne_of_gt h1)
    have hipos : (0:ℝ) < (1 + q)⁻¹ := inv_pos.mpr h1
    have htl : (0.81192:ℝ) < (1 + q)⁻¹ := by nlinarith [hinv1, h1, hqu, hipos]
    have htu : (1 + q)⁻¹ < 0.81193 := by nlinarith [hinv1, h1, hql, hipos]
    set t2 : ℝ := (1 + q)⁻¹ with ht2
    have ht0 : (0:ℝ) ≤ t2 := le_of_lt hipos
    have h2 : t2^2 ≤ (0.81193:ℝ)^2 := pow_le_pow_left₀ ht0 (le_of_lt htu) 2
    have h4 : t2^4 ≤ (0.81193:ℝ)^4 := pow_le_pow_left₀ ht0 (le_of_lt htu) 4
    have h3 : (0.81192:ℝ)^3 ≤ t2^3 := pow_le_pow_left₀ (by norm_num) (le_of_lt htl) 3
    have h5 : (0.81192:ℝ)^5 ≤ t2^5 := pow_le_pow_left₀ (by norm_num) (le_of_lt htl) 5
    have hps : asPoly t2 = 0.254829592*t2 + (-0.284496736)*t2^2 + 1.421413741*t2^3 +
        (-1.453152027)*t2^4 + 1.061405429*t2^5 := by rw [asPoly]; ring
    rw [hps]
    nlinarith [h2, h3, h4, h5, htl]
  have hkey : normalCDF 1 < inlineNormalCDF 1 := by
    simp only [normalCDF, inlineNormalCDF, abs_one]
    norm_num
    have hexp : -((Real.sqrt 2)⁻¹ * (Real.sqrt 2)⁻¹) = -(1/2 : ℝ) := by
      rw [← mul_inv, hs2]; norm_num
    rw [hexp]
    exact mul_lt_mul_of_pos_right (lt_trans hP1 hP2) (Real.exp_pos _)
  rw [Real.sqrt_one]
  norm_num [chiSquarePValue]
  exact ne_of_gt hkey
